import Mathlib

/-!
Shallow embedding of the core of a minimal multi-window GUI shell
(`src/core/application.rs` and `src/core/window.rs`): the capability
negotiator's pairwise comparator, the window registry (an ordered vector of
windows plus an id-to-index map), the single-threaded event dispatcher with
its keyboard shortcuts, the frame-rate gate and the redraw cascade, and the
surface-resize path with its zero-dimension clamping.

Machine integers (u32, usize, u8) are modelled as Nat; none of the verified
paths can overflow them.  `std::time::Instant` is modelled as a Nat count of
nanoseconds; `Instant` subtraction saturates at zero exactly as Nat
subtraction does.  `HashMap<WindowId, usize>` is modelled extensionally as a
function `Nat -> Option Nat` (the dispatcher never iterates the map, so only
its lookup/insert/remove behaviour is observable).  Paths on which the Rust
code would panic (indexing out of bounds, failed u32-to-i32 conversion)
return `none`.
-/

namespace GuiTemplate

/-- A GPU surface configuration candidate (glutin `Config`), restricted to
the fields the capability negotiator reads: `supports_transparency` (an
`Option<bool>` in the API) and `num_samples`. -/
structure Config where
  supports_transparency : Option Bool
  num_samples : Nat
deriving DecidableEq, Repr

/-- The pairwise comparator `min_transparency` from `Application::new`
(application.rs): the reducer applied left-to-right over the candidate
configs. -/
def min_transparency (c1 c2 : Config) : Config :=
  let transparency1 := c1.supports_transparency.getD false
  let transparency2 := c2.supports_transparency.getD false
  if (transparency1 && !transparency2) || decide (c1.num_samples < c2.num_samples) then
    c1
  else
    c2

/-- Models `NonZeroU32::new`: `some` exactly when the value is nonzero. -/
def nonZeroNew (value : Nat) : Option Nat :=
  if value ≠ 0 then some value else none

/-- Helper `u32_to_nonzero` (window.rs, mod helper): converts the value to a
nonzero u32, clamping 0 to `NonZeroU32::MIN` (that is, 1). -/
def u32_to_nonzero (value : Nat) : Nat :=
  (nonZeroNew value).getD 1

/-- Models `i32::try_from` on a u32 value, as used by `Skia::create_surface` for
the width and the height: fails (panic through `expect` in the source) for
values of at least 2^31. -/
def i32TryFrom (value : Nat) : Option Nat :=
  if value < 2 ^ 31 then some value else none

/-- A window (window.rs), restricted to the state the dispatcher and the
resize path touch: the OS id and title, the sizes last handed to the GL
swap surface and to the Skia canvas surface, and the frame-pacing fields
`frame` and `previous_frame_start`. -/
structure Window where
  id : Nat
  title : String
  gl_surface_size : Nat × Nat
  skia_surface_size : Nat × Nat
  frame : Nat
  previous_frame_start : Nat
deriving DecidableEq, Repr

/-- Models `Skia::create_surface`: the Skia surface is rebuilt at the literal
requested size, after converting both dimensions to i32. -/
def create_surface_size (width height : Nat) : Option (Nat × Nat) :=
  match i32TryFrom width, i32TryFrom height with
  | some w, some h => some (w, h)
  | _, _ => none

/-- Models `Window::resize` (window.rs): the GL swap surface is resized with each
dimension clamped through `u32_to_nonzero`, then `Skia::resize_surface`
discards and rebuilds the canvas surface at the literal requested size.
`none` models the panic of the i32 conversion inside `create_surface`. -/
def Window.resize (w : Window) (width height : Nat) : Option Window :=
  (create_surface_size width height).map fun skiaSize =>
    { w with
      gl_surface_size := (u32_to_nonzero width, u32_to_nonzero height),
      skia_surface_size := skiaSize }

/-- The environment inputs consumed during one dispatch: the instant read at
entry (`std::time::Instant::now`), and, for the window-opening shortcut,
the OS-chosen id and initial inner size of the window that
`glutin_winit::finalize_window` would produce. -/
structure Env where
  now : Nat
  fresh_id : Nat
  fresh_size : Nat × Nat
deriving DecidableEq, Repr

/-- Models `Window::new` / `Window::from_raw`: a fresh window with the given title,
`frame` 0 and `previous_frame_start` taken at creation; both surfaces start
at the window's inner size (the GL one through the nonzero clamp). -/
def newWindow (env : Env) (title : String) : Window :=
  { id := env.fresh_id
    title := title
    gl_surface_size := (u32_to_nonzero env.fresh_size.1, u32_to_nonzero env.fresh_size.2)
    skia_surface_size := env.fresh_size
    frame := 0
    previous_frame_start := env.now }

/-- Models `ApplicationInternal` (application.rs): the id-to-index map
(`HashMap<WindowId, usize>`, modelled extensionally), the ordered window
vector, and the shared keyboard modifier state (`winit::event::Modifiers`,
modelled abstractly as a Nat). -/
structure ApplicationInternal where
  window_indices : Nat → Option Nat
  windows : List Window
  keyboard_modifiers : Nat

/-- Models `HashMap::insert`. -/
def hmInsert (m : Nat → Option Nat) (k v : Nat) : Nat → Option Nat :=
  fun k2 => if k2 = k then some v else m k2

/-- Models `HashMap::remove`. -/
def hmRemove (m : Nat → Option Nat) (k : Nat) : Nat → Option Nat :=
  fun k2 => if k2 = k then none else m k2

/-- The empty state `ApplicationInternal` starts from in `Application::new`:
empty map, empty window vector, default modifiers. -/
def initState : ApplicationInternal :=
  { window_indices := fun _ => none, windows := [], keyboard_modifiers := 0 }

/-- Models `ApplicationInternal::open_first_window`: insert the initial window's id
at index 0 and push it. -/
def open_first_window (s : ApplicationInternal) (title : String) (env : Env) :
    ApplicationInternal :=
  let window := newWindow env title
  { s with
    window_indices := hmInsert s.window_indices window.id 0
    windows := s.windows ++ [window] }

/-- Models `ApplicationInternal::open_window`: insert the new window's id at index
`windows.len()` and push it. -/
def open_window (s : ApplicationInternal) (title : String) (env : Env) :
    ApplicationInternal :=
  let window := newWindow env title
  { s with
    window_indices := hmInsert s.window_indices window.id s.windows.length
    windows := s.windows ++ [window] }

/-- The reindex loop of the `CloseRequested` arm:
`for i in window_index..windows.len() { window_indices.insert(windows[i].id(), i) }`,
modelled as a structural walk over `windows.drop window_index` carrying the
running index. -/
def reindexLoop (m : Nat → Option Nat) (i : Nat) : List Window → (Nat → Option Nat)
  | [] => m
  | w :: rest => reindexLoop (hmInsert m w.id i) (i + 1) rest

/-- Events dispatched to `window_event`, restricted to the arms that carry
behaviour.  `KeyReleased` is a `KeyboardInput` whose event has
`state: Released` and `repeat: false`; `KeyboardOther` is every other
`KeyboardInput`; `OtherIgnored` stands for all the remaining no-op arms. -/
inductive WinEvent where
  | Resized (width height : Nat)
  | CloseRequested
  | KeyReleased (logical_key : String)
  | KeyboardOther
  | ModifiersChanged (new_mods : Nat)
  | RedrawRequested
  | OtherIgnored
deriving DecidableEq, Repr

/-- Observable side effects emitted while handling one event: a
`request_redraw` on the window with the given id, a `reset_canvas`, a
`draw` invoking the renderer callback at the given frame argument, and the
`event_loop.exit()` signal. -/
inductive Effect where
  | RequestRedraw (id : Nat)
  | ResetCanvas (id : Nat)
  | Draw (id : Nat) (frame : Nat)
  | ExitLoop
deriving DecidableEq, Repr

/-- Value of `Duration::from_secs_f64(1.0 / 60.0)` in nanoseconds: the target frame
interval of the frame-rate gate. -/
def frameDuration : Nat := 16666667

/-- The `CloseRequested` arm of `window_event`, after the target window has
been looked up at `window_index`: remove the id from the map, remove the
window from the vector, exit the loop if the vector became empty, and
otherwise reindex every window from `window_index` on. -/
def close_arm (s : ApplicationInternal) (window_id window_index : Nat) :
    ApplicationInternal × List Effect :=
  let indices1 := hmRemove s.window_indices window_id
  let windows1 := s.windows.eraseIdx window_index
  if windows1.isEmpty then
    ({ s with window_indices := indices1, windows := windows1 }, [Effect.ExitLoop])
  else
    ({ s with
        window_indices := reindexLoop indices1 window_index (windows1.drop window_index)
        windows := windows1 }, [])

/-- The re-entry `self.window_event(event_loop, window_id, CloseRequested)`
performed by the q shortcut: the whole handler runs again from the top (the
lookup is redone on the unchanged state) with a `CloseRequested` event. -/
def close_requested (s : ApplicationInternal) (window_id : Nat) :
    Option (ApplicationInternal × List Effect) :=
  match s.window_indices window_id with
  | none => some (s, [])
  | some window_index =>
    match s.windows.get? window_index with
    | none => none
    | some _ => some (close_arm s window_id window_index)

/-- The `RedrawRequested` arm of `window_event`: if more than
`frameDuration` elapsed since the window's `previous_frame_start`, record
the new frame start, increment `frame`, reset the canvas and draw
(`render_frame(frame % 360, 60, 60, canvas)`); in any case, if a next
window exists in registry order (`window_index + 1 < window_count`),
request its redraw. -/
def redraw_arm (env : Env) (s : ApplicationInternal)
    (window_id window_index window_count : Nat) (window : Window) :
    Option (ApplicationInternal × List Effect) :=
  let repaint := frameDuration < env.now - window.previous_frame_start
  let windows2 :=
    if repaint then
      s.windows.set window_index
        { window with previous_frame_start := env.now, frame := window.frame + 1 }
    else
      s.windows
  let effects :=
    if repaint then
      [Effect.ResetCanvas window_id, Effect.Draw window_id ((window.frame + 1) % 360)]
    else
      []
  let next_window_index := window_index + 1
  if next_window_index < window_count then
    match windows2.get? next_window_index with
    | some next_window =>
        some ({ s with windows := windows2 }, effects ++ [Effect.RequestRedraw next_window.id])
    | none => none
  else
    some ({ s with windows := windows2 }, effects)

/-- Models `ApplicationHandler::window_event` (application.rs): capture the current
instant and the window count, look the target window up by id (silently
dropping the event if the id is unknown), and dispatch on the event kind.
`none` models a panic (`self.windows[window_index]` out of bounds, or the
i32 conversion inside resize). -/
def window_event (env : Env) (s : ApplicationInternal) (window_id : Nat)
    (event : WinEvent) : Option (ApplicationInternal × List Effect) :=
  let window_count := s.windows.length
  match s.window_indices window_id with
  | none => some (s, [])
  | some window_index =>
    match s.windows.get? window_index with
    | none => none
    | some window =>
      match event with
      | WinEvent.Resized width height =>
          match window.resize width height with
          | some window2 =>
              some ({ s with windows := s.windows.set window_index window2 }, [])
          | none => none
      | WinEvent.CloseRequested => some (close_arm s window_id window_index)
      | WinEvent.KeyReleased logical_key =>
          if logical_key = "q" then
            close_requested s window_id
          else if logical_key = "a" then
            some (open_window s ("Window " ++ toString window_count) env, [])
          else
            some (s, [])
      | WinEvent.KeyboardOther => some (s, [])
      | WinEvent.ModifiersChanged new_mods =>
          some ({ s with keyboard_modifiers := new_mods }, [])
      | WinEvent.RedrawRequested =>
          redraw_arm env s window_id window_index window_count window
      | WinEvent.OtherIgnored => some (s, [])

/-- The cause `new_events` is called with: only `StartCause::Poll` carries
behaviour. -/
inductive StartCause where
  | Poll
  | OtherCause
deriving DecidableEq, Repr

/-- Models `ApplicationHandler::new_events` (application.rs): on a `Poll` tick,
request a redraw of window 0 when the registry is nonempty. -/
def new_events (s : ApplicationInternal) (cause : StartCause) : List Effect :=
  match cause with
  | StartCause.Poll =>
    match s.windows with
    | [] => []
    | w :: _ => [Effect.RequestRedraw w.id]
  | StartCause.OtherCause => []

/-- The ids requested to redraw among a list of effects, in emission
order. -/
def redrawRequests (effects : List Effect) : List Nat :=
  effects.filterMap fun e =>
    match e with
    | Effect.RequestRedraw i => some i
    | _ => none

/-- Registry well-formedness: the id-to-index map sends the id of the window
at every live position to exactly that position, and every mapped entry
points at an in-range window carrying that id. -/
def WF (s : ApplicationInternal) : Prop :=
  (∀ i w, s.windows.get? i = some w → s.window_indices w.id = some i) ∧
  (∀ id i, s.window_indices id = some i →
    ∃ w, s.windows.get? i = some w ∧ w.id = id)

/-- States reachable in the program: start from the empty state, open the
first window at startup (the registry is empty there and the OS id is
fresh), then perform any sequence of dispatched events whose environment
supplies an id not currently registered (the OS guarantee for newly created
windows). -/
inductive Reachable : ApplicationInternal → Prop where
  | init : Reachable initState
  | first (s : ApplicationInternal) (title : String) (env : Env) :
      Reachable s → s.windows = [] →
      Reachable (open_first_window s title env)
  | step (s s2 : ApplicationInternal) (env : Env) (window_id : Nat)
      (event : WinEvent) (effects : List Effect) :
      Reachable s → s.window_indices env.fresh_id = none →
      window_event env s window_id event = some (s2, effects) →
      Reachable s2

/-! Concrete states used by the witnesses: the initial window opened at
startup, then two windows opened through the a shortcut. -/

/-- Environment for the startup window: instant 0, OS id 7, inner size
500 by 500. -/
def envA : Env := { now := 0, fresh_id := 7, fresh_size := (500, 500) }

/-- Environment for the second window: OS id 8. -/
def envB : Env := { now := 1000, fresh_id := 8, fresh_size := (500, 500) }

/-- Environment for the third window: OS id 9. -/
def envC : Env := { now := 2000, fresh_id := 9, fresh_size := (500, 500) }

/-- The state after startup: one window, id 7, at index 0. -/
def stateOne : ApplicationInternal :=
  open_first_window initState ("Rust Skia Template") envA

/-- The state after releasing a on window 7: two windows, ids 7 and 8. -/
def stateTwo : ApplicationInternal :=
  open_window stateOne ("Window " ++ toString stateOne.windows.length) envB

/-- The state after releasing a again on window 7: three windows, ids 7, 8
and 9. -/
def stateThree : ApplicationInternal :=
  open_window stateTwo ("Window " ++ toString stateTwo.windows.length) envC

/-- The state reached from the three-window state by closing window 8,
which is registered at index 1. -/
def stateThreeClosed : ApplicationInternal := (close_arm stateThree 8 1).1

/-- Environment whose instant lies one frame interval past the startup
instant, so a first redraw repaints. -/
def envD : Env := { now := 20000000, fresh_id := 0, fresh_size := (0, 0) }

/-- Environment 10 ms after envD: under the frame interval, so a second
redraw is gated. -/
def envE : Env := { now := 30000000, fresh_id := 0, fresh_size := (0, 0) }

/-- First redraw handling of window 7 in the two-window state. -/
def redrawOnce : ApplicationInternal × List Effect :=
  (window_event envD stateTwo 7 WinEvent.RedrawRequested).getD (initState, [])

/-- Second redraw handling of window 7, 10 ms later. -/
def redrawTwice : ApplicationInternal × List Effect :=
  (window_event envE redrawOnce.1 7 WinEvent.RedrawRequested).getD (initState, [])

/-- The startup window, id 7. -/
def winA : Window := newWindow envA ("Rust Skia Template")

/-- The second window, id 8, titled Window 1. -/
def winB : Window := newWindow envB ("Window " ++ toString stateOne.windows.length)

/-- The third window, id 9, titled Window 2. -/
def winC : Window := newWindow envC ("Window " ++ toString stateTwo.windows.length)

/-! Basic facts about the extensional map operations. -/

theorem hmInsert_self (m : Nat → Option Nat) (k v : Nat) : hmInsert m k v k = some v := by
  simp [hmInsert]

theorem hmInsert_other (m : Nat → Option Nat) {k v k2 : Nat} (h : k2 ≠ k) :
    hmInsert m k v k2 = m k2 := by
  simp [hmInsert, h]

theorem hmRemove_self (m : Nat → Option Nat) (k : Nat) : hmRemove m k k = none := by
  simp [hmRemove]

theorem hmRemove_other (m : Nat → Option Nat) {k k2 : Nat} (h : k2 ≠ k) :
    hmRemove m k k2 = m k2 := by
  simp [hmRemove, h]

/-! Facts about `List.eraseIdx` positions, proved here in the `get?` form
the registry proofs use. -/

theorem get?_eraseIdx_lt :
    ∀ (l : List Window) (i j : Nat), j < i → (l.eraseIdx i).get? j = l.get? j := by
  intro l
  induction l with
  | nil => intro i j _; rfl
  | cons a tl ih =>
    intro i j hj
    cases i with
    | zero => omega
    | succ i2 =>
      cases j with
      | zero => rfl
      | succ j2 =>
        simp only [List.eraseIdx, List.get?]
        exact ih i2 j2 (by omega)

theorem get?_eraseIdx_ge :
    ∀ (l : List Window) (i j : Nat), i ≤ j → (l.eraseIdx i).get? j = l.get? (j + 1) := by
  intro l
  induction l with
  | nil => intro i j _; rfl
  | cons a tl ih =>
    intro i j hij
    cases i with
    | zero => rfl
    | succ i2 =>
      cases j with
      | zero => omega
      | succ j2 =>
        simp only [List.eraseIdx, List.get?]
        exact ih i2 j2 (by omega)

/-! Characterisation of the reindex loop of the close arm. -/

theorem reindexLoop_not_mem :
    ∀ (l : List Window) (m : Nat → Option Nat) (i k : Nat),
      (∀ w ∈ l, w.id ≠ k) → reindexLoop m i l k = m k := by
  intro l
  induction l with
  | nil => intro m i k _; rfl
  | cons a tl ih =>
    intro m i k hk
    simp only [reindexLoop]
    rw [ih _ _ _ (fun w hw => hk w (List.mem_cons_of_mem a hw))]
    exact hmInsert_other m (fun he => hk a (List.mem_cons_self a tl) he.symm)

theorem reindexLoop_get :
    ∀ (l : List Window) (m : Nat → Option Nat) (i j : Nat) (w : Window),
      l.get? j = some w →
      (∀ j2 w2, l.get? j2 = some w2 → w2.id = w.id → j2 = j) →
      reindexLoop m i l w.id = some (i + j) := by
  intro l
  induction l with
  | nil => intro m i j w h _; simp [List.get?] at h
  | cons a tl ih =>
    intro m i j w hget huniq
    cases j with
    | zero =>
      simp only [List.get?] at hget
      injection hget with hget
      subst hget
      simp only [reindexLoop]
      rw [reindexLoop_not_mem]
      · simpa using hmInsert_self m a.id i
      · intro v hv hvid
        obtain ⟨n, hn⟩ := List.mem_iff_get?.mp hv
        have := huniq (n + 1) v (by simpa using hn) hvid
        omega
    | succ j2 =>
      simp only [List.get?] at hget
      simp only [reindexLoop]
      have haid : a.id ≠ w.id := by
        intro he
        have := huniq 0 a rfl he
        omega
      have := ih (hmInsert m a.id i) (i + 1) j2 w hget
        (fun j3 w3 h3 hid => by
          have := huniq (j3 + 1) w3 (by simpa using h3) hid
          omega)
      rw [this]
      congr 1
      omega

theorem reindexLoop_inv :
    ∀ (l : List Window) (m : Nat → Option Nat) (i k j : Nat),
      reindexLoop m i l k = some j →
      (∃ jl w, l.get? jl = some w ∧ w.id = k ∧ j = i + jl) ∨
      (m k = some j ∧ ∀ w ∈ l, w.id ≠ k) := by
  intro l
  induction l with
  | nil => intro m i k j h; right; exact ⟨h, by simp⟩
  | cons a tl ih =>
    intro m i k j h
    simp only [reindexLoop] at h
    rcases ih _ _ _ _ h with ⟨jl, w, hget, hid, hj⟩ | ⟨hm, hnot⟩
    · exact Or.inl ⟨jl + 1, w, by simpa using hget, hid, by omega⟩
    · by_cases hk : k = a.id
      · subst hk
        rw [hmInsert_self] at hm
        injection hm with hm
        exact Or.inl ⟨0, a, rfl, rfl, by omega⟩
      · rw [hmInsert_other m hk] at hm
        refine Or.inr ⟨hm, ?_⟩
        intro w hw
        rcases List.mem_cons.mp hw with he | hw2
        · subst he; exact fun hh => hk hh.symm
        · exact hnot w hw2

/-! Consequences of registry well-formedness. -/

theorem wf_window_at {s : ApplicationInternal} (hWF : WF s) {wid i : Nat}
    (hmap : s.window_indices wid = some i) :
    ∃ w, s.windows.get? i = some w ∧ w.id = wid :=
  hWF.2 wid i hmap

theorem wf_ids_inj {s : ApplicationInternal} (hWF : WF s) {j j2 : Nat} {u u2 : Window}
    (h1 : s.windows.get? j = some u) (h2 : s.windows.get? j2 = some u2)
    (hid : u.id = u2.id) : j = j2 := by
  have hj : s.window_indices u.id = some j := hWF.1 j u h1
  have hj2 : s.window_indices u2.id = some j2 := hWF.1 j2 u2 h2
  rw [hid, hj2] at hj
  injection hj with hj
  exact hj.symm

theorem wf_id_at {s : ApplicationInternal} (hWF : WF s) {wid i : Nat} {w : Window}
    (hmap : s.window_indices wid = some i) (hwin : s.windows.get? i = some w) :
    w.id = wid := by
  obtain ⟨w2, hw2, hid⟩ := wf_window_at hWF hmap
  rw [hwin] at hw2
  injection hw2 with hw2
  rw [hw2]
  exact hid

/-! Characterisation of the close arm: the window vector, the shifted
positions, and well-formedness of the resulting state. -/

theorem close_arm_windows (s : ApplicationInternal) (wid i : Nat) :
    (close_arm s wid i).1.windows = s.windows.eraseIdx i := by
  simp only [close_arm]
  split <;> rfl

theorem close_arm_modifiers (s : ApplicationInternal) (wid i : Nat) :
    (close_arm s wid i).1.keyboard_modifiers = s.keyboard_modifiers := by
  simp only [close_arm]
  split <;> rfl

theorem close_arm_get?_lt (s : ApplicationInternal) (wid : Nat) {i j : Nat} (hj : j < i) :
    (close_arm s wid i).1.windows.get? j = s.windows.get? j := by
  rw [close_arm_windows]
  exact get?_eraseIdx_lt _ _ _ hj

theorem close_arm_get?_ge (s : ApplicationInternal) (wid : Nat) {i j : Nat} (hj : i ≤ j) :
    (close_arm s wid i).1.windows.get? j = s.windows.get? (j + 1) := by
  rw [close_arm_windows]
  exact get?_eraseIdx_ge _ _ _ hj

theorem close_arm_pos {s : ApplicationInternal} {wid i : Nat} {w : Window}
    (hWF : WF s) (hmap : s.window_indices wid = some i)
    (hwin : s.windows.get? i = some w) :
    ∀ j u, (close_arm s wid i).1.windows.get? j = some u →
      (close_arm s wid i).1.window_indices u.id = some j := by
  have hwid : w.id = wid := wf_id_at hWF hmap hwin
  intro j u hju
  rw [close_arm_windows] at hju
  have hju2 := hju
  have hindices :
      (close_arm s wid i).1.window_indices =
        if (s.windows.eraseIdx i).isEmpty then hmRemove s.window_indices wid
        else reindexLoop (hmRemove s.window_indices wid) i ((s.windows.eraseIdx i).drop i) := by
    simp only [close_arm]
    split <;> simp_all
  rw [hindices]
  have hne : ¬(s.windows.eraseIdx i).isEmpty := by
    intro he
    rw [List.isEmpty_iff] at he
    rw [he] at hju
    simp at hju
  rw [if_neg hne]
  rcases Nat.lt_or_ge j i with hlt | hge
  · -- position before the removed index: untouched by the loop and by the removal
    rw [get?_eraseIdx_lt _ _ _ hlt] at hju
    rw [reindexLoop_not_mem]
    · have hidne : u.id ≠ wid := by
        intro he
        have := wf_ids_inj hWF hju hwin (by rw [he, hwid])
        omega
      rw [hmRemove_other _ hidne]
      exact hWF.1 j u hju
    · intro v hv hvid
      obtain ⟨n, hn⟩ := List.mem_iff_get?.mp hv
      rw [List.get?_drop] at hn
      rw [get?_eraseIdx_ge _ _ _ (by omega)] at hn
      rw [get?_eraseIdx_lt _ _ _ hlt] at hju2
      have := wf_ids_inj hWF hn hju2 hvid
      omega
  · -- position at or after the removed index: set by the loop
    have hdrop : ((s.windows.eraseIdx i).drop i).get? (j - i) = some u := by
      rw [List.get?_drop]
      have : i + (j - i) = j := by omega
      rw [this]
      exact hju
    rw [reindexLoop_get _ _ _ (j - i) u hdrop]
    · congr 1
      omega
    · intro j3 w3 h3 hid3
      rw [List.get?_drop] at h3
      rw [get?_eraseIdx_ge _ _ _ (by omega)] at h3
      rw [get?_eraseIdx_ge _ _ _ hge] at hju2
      have := wf_ids_inj hWF h3 hju2 hid3
      omega

theorem close_arm_dom {s : ApplicationInternal} {wid i : Nat} {w : Window}
    (hWF : WF s) (hmap : s.window_indices wid = some i)
    (hwin : s.windows.get? i = some w) :
    ∀ k j, (close_arm s wid i).1.window_indices k = some j →
      ∃ u, (close_arm s wid i).1.windows.get? j = some u ∧ u.id = k := by
  have hwid : w.id = wid := wf_id_at hWF hmap hwin
  obtain ⟨hleni, -⟩ := List.get?_eq_some.mp hwin
  intro k j hk
  have hremove : ∀ j2, hmRemove s.window_indices wid k = some j2 →
      ∃ u, s.windows.get? j2 = some u ∧ u.id = k ∧ j2 ≠ i := by
    intro j2 hm1
    have hkwid : k ≠ wid := by
      intro he
      rw [he, hmRemove_self] at hm1
      exact Option.noConfusion hm1
    rw [hmRemove_other _ hkwid] at hm1
    obtain ⟨u, hu, huid⟩ := hWF.2 k j2 hm1
    refine ⟨u, hu, huid, ?_⟩
    intro he
    rw [he, hwin] at hu
    injection hu with hu
    rw [← hu] at huid
    exact hkwid (by rw [← huid, hwid])
  have hindices :
      (close_arm s wid i).1.window_indices =
        if (s.windows.eraseIdx i).isEmpty then hmRemove s.window_indices wid
        else reindexLoop (hmRemove s.window_indices wid) i ((s.windows.eraseIdx i).drop i) := by
    simp only [close_arm]
    split <;> simp_all
  rw [hindices] at hk
  rw [close_arm_windows]
  by_cases hemp : (s.windows.eraseIdx i).isEmpty
  · exfalso
    rw [if_pos hemp] at hk
    obtain ⟨u, hu, huid, hji⟩ := hremove j hk
    have hlen1 : (s.windows.eraseIdx i).length = s.windows.length - 1 := by
      rw [List.length_eraseIdx]
      simp [hleni]
    rw [List.isEmpty_iff] at hemp
    rw [hemp] at hlen1
    simp only [List.length_nil] at hlen1
    obtain ⟨hj, -⟩ := List.get?_eq_some.mp hu
    omega
  · rw [if_neg hemp] at hk
    rcases reindexLoop_inv _ _ _ _ _ hk with ⟨jl, v, hv, hvid, hj⟩ | ⟨hm1, hnone⟩
    · rw [List.get?_drop] at hv
      refine ⟨v, ?_, hvid⟩
      rw [hj]
      exact hv
    · obtain ⟨u, hu, huid, hji⟩ := hremove j hm1
      rcases Nat.lt_or_ge j i with hlt | hge
      · exact ⟨u, by rw [get?_eraseIdx_lt _ _ _ hlt]; exact hu, huid⟩
      · exfalso
        have hu1 : (s.windows.eraseIdx i).get? (j - 1) = some u := by
          rw [get?_eraseIdx_ge _ _ _ (by omega)]
          have h2 : j - 1 + 1 = j := by omega
          rw [h2]
          exact hu
        have hd : ((s.windows.eraseIdx i).drop i).get? (j - 1 - i) = some u := by
          rw [List.get?_drop]
          have h2 : i + (j - 1 - i) = j - 1 := by omega
          rw [h2]
          exact hu1
        exact hnone u (List.get?_mem hd) huid

theorem close_arm_dom_ge {s : ApplicationInternal} {wid i : Nat} {w : Window}
    (hWF : WF s) (hmap : s.window_indices wid = some i)
    (hwin : s.windows.get? i = some w) :
    ∀ j u, i ≤ j → s.windows.get? (j + 1) = some u →
      (close_arm s wid i).1.window_indices u.id = some j := by
  intro j u hge hu
  apply close_arm_pos hWF hmap hwin
  rw [close_arm_get?_ge _ _ hge]
  exact hu

theorem close_arm_WF {s : ApplicationInternal} {wid i : Nat} {w : Window}
    (hWF : WF s) (hmap : s.window_indices wid = some i)
    (hwin : s.windows.get? i = some w) :
    WF (close_arm s wid i).1 :=
  ⟨close_arm_pos hWF hmap hwin, close_arm_dom hWF hmap hwin⟩

/-! Unfolding of `window_event`, one lemma per arm, under the lookup facts. -/

theorem window_event_unknown {s : ApplicationInternal} {window_id : Nat}
    (h : s.window_indices window_id = none) (env : Env) (event : WinEvent) :
    window_event env s window_id event = some (s, []) := by
  simp [window_event, h]

theorem window_event_close {s : ApplicationInternal} {window_id i : Nat} {w : Window}
    (hmap : s.window_indices window_id = some i) (hwin : s.windows.get? i = some w)
    (env : Env) :
    window_event env s window_id WinEvent.CloseRequested = some (close_arm s window_id i) := by
  have hwin2 : s.windows[i]? = some w := by
    rw [← List.get?_eq_getElem?]
    exact hwin
  simp [window_event, hmap, hwin2]

theorem close_requested_known {s : ApplicationInternal} {window_id i : Nat} {w : Window}
    (hmap : s.window_indices window_id = some i) (hwin : s.windows.get? i = some w) :
    close_requested s window_id = some (close_arm s window_id i) := by
  have hwin2 : s.windows[i]? = some w := by
    rw [← List.get?_eq_getElem?]
    exact hwin
  simp [close_requested, hmap, hwin2]

theorem window_event_resized {s : ApplicationInternal} {window_id i : Nat} {w : Window}
    (hmap : s.window_indices window_id = some i) (hwin : s.windows.get? i = some w)
    (env : Env) (width height : Nat) :
    window_event env s window_id (WinEvent.Resized width height) =
      match w.resize width height with
      | some w2 => some ({ s with windows := s.windows.set i w2 }, [])
      | none => none := by
  have hwin2 : s.windows[i]? = some w := by
    rw [← List.get?_eq_getElem?]
    exact hwin
  simp [window_event, hmap, hwin2]

theorem window_event_key_q {s : ApplicationInternal} {window_id i : Nat} {w : Window}
    (hmap : s.window_indices window_id = some i) (hwin : s.windows.get? i = some w)
    (env : Env) :
    window_event env s window_id (WinEvent.KeyReleased ("q")) =
      close_requested s window_id := by
  have hwin2 : s.windows[i]? = some w := by
    rw [← List.get?_eq_getElem?]
    exact hwin
  simp [window_event, hmap, hwin2]

theorem window_event_key_a {s : ApplicationInternal} {window_id i : Nat} {w : Window}
    (hmap : s.window_indices window_id = some i) (hwin : s.windows.get? i = some w)
    (env : Env) :
    window_event env s window_id (WinEvent.KeyReleased ("a")) =
      some (open_window s ("Window " ++ toString s.windows.length) env, []) := by
  have hwin2 : s.windows[i]? = some w := by
    rw [← List.get?_eq_getElem?]
    exact hwin
  simp [window_event, hmap, hwin2]

theorem window_event_key_other {s : ApplicationInternal} {window_id i : Nat} {w : Window}
    (hmap : s.window_indices window_id = some i) (hwin : s.windows.get? i = some w)
    (env : Env) {key : String} (hq : key ≠ "q") (ha : key ≠ "a") :
    window_event env s window_id (WinEvent.KeyReleased key) = some (s, []) := by
  have hwin2 : s.windows[i]? = some w := by
    rw [← List.get?_eq_getElem?]
    exact hwin
  simp [window_event, hmap, hwin2, hq, ha]

theorem window_event_keyboard_other {s : ApplicationInternal} {window_id i : Nat} {w : Window}
    (hmap : s.window_indices window_id = some i) (hwin : s.windows.get? i = some w)
    (env : Env) :
    window_event env s window_id WinEvent.KeyboardOther = some (s, []) := by
  have hwin2 : s.windows[i]? = some w := by
    rw [← List.get?_eq_getElem?]
    exact hwin
  simp [window_event, hmap, hwin2]

theorem window_event_modifiers {s : ApplicationInternal} {window_id i : Nat} {w : Window}
    (hmap : s.window_indices window_id = some i) (hwin : s.windows.get? i = some w)
    (env : Env) (new_mods : Nat) :
    window_event env s window_id (WinEvent.ModifiersChanged new_mods) =
      some ({ s with keyboard_modifiers := new_mods }, []) := by
  have hwin2 : s.windows[i]? = some w := by
    rw [← List.get?_eq_getElem?]
    exact hwin
  simp [window_event, hmap, hwin2]

theorem window_event_redraw {s : ApplicationInternal} {window_id i : Nat} {w : Window}
    (hmap : s.window_indices window_id = some i) (hwin : s.windows.get? i = some w)
    (env : Env) :
    window_event env s window_id WinEvent.RedrawRequested =
      redraw_arm env s window_id i s.windows.length w := by
  have hwin2 : s.windows[i]? = some w := by
    rw [← List.get?_eq_getElem?]
    exact hwin
  simp [window_event, hmap, hwin2]

theorem window_event_other {s : ApplicationInternal} {window_id i : Nat} {w : Window}
    (hmap : s.window_indices window_id = some i) (hwin : s.windows.get? i = some w)
    (env : Env) :
    window_event env s window_id WinEvent.OtherIgnored = some (s, []) := by
  have hwin2 : s.windows[i]? = some w := by
    rw [← List.get?_eq_getElem?]
    exact hwin
  simp [window_event, hmap, hwin2]

/-! Characterisation of the redraw arm. -/

theorem redraw_arm_inv {env : Env} {s : ApplicationInternal} {window_id i cnt : Nat}
    {w : Window} {s2 : ApplicationInternal} {eff : List Effect}
    (h : redraw_arm env s window_id i cnt w = some (s2, eff)) :
    s2.window_indices = s.window_indices ∧
    s2.keyboard_modifiers = s.keyboard_modifiers ∧
    ∃ base casc,
      eff = base ++ casc ∧
      ((¬frameDuration < env.now - w.previous_frame_start ∧ base = [] ∧
          s2.windows = s.windows) ∨
        (frameDuration < env.now - w.previous_frame_start ∧
          base = [Effect.ResetCanvas window_id, Effect.Draw window_id ((w.frame + 1) % 360)] ∧
          s2.windows = s.windows.set i
            { w with previous_frame_start := env.now, frame := w.frame + 1 })) ∧
      ((¬i + 1 < cnt ∧ casc = []) ∨
        (i + 1 < cnt ∧ ∃ nw, s2.windows.get? (i + 1) = some nw ∧
          casc = [Effect.RequestRedraw nw.id])) := by
  by_cases hrep : frameDuration < env.now - w.previous_frame_start <;>
    by_cases hnext : i + 1 < cnt
  · simp only [redraw_arm, if_pos hrep, if_pos hnext] at h
    rcases hget : (s.windows.set i
        { w with previous_frame_start := env.now, frame := w.frame + 1 }).get? (i + 1) with
      _ | nw
    · rw [hget] at h
      exact Option.noConfusion h
    · rw [hget] at h
      simp only [Option.some.injEq, Prod.mk.injEq] at h
      obtain ⟨h1, h2⟩ := h
      refine ⟨by rw [← h1], by rw [← h1], _, _, h2.symm, Or.inr ⟨hrep, rfl, by rw [← h1]⟩,
        Or.inr ⟨hnext, nw, ?_, rfl⟩⟩
      rw [← h1]
      exact hget
  · simp only [redraw_arm, if_pos hrep, if_neg hnext] at h
    simp only [Option.some.injEq, Prod.mk.injEq] at h
    obtain ⟨h1, h2⟩ := h
    exact ⟨by rw [← h1], by rw [← h1], _, _, by rw [← h2, List.append_nil],
      Or.inr ⟨hrep, rfl, by rw [← h1]⟩, Or.inl ⟨hnext, rfl⟩⟩
  · simp only [redraw_arm, if_neg hrep, if_pos hnext] at h
    rcases hget : s.windows.get? (i + 1) with _ | nw
    · rw [hget] at h
      exact Option.noConfusion h
    · rw [hget] at h
      simp only [Option.some.injEq, Prod.mk.injEq] at h
      obtain ⟨h1, h2⟩ := h
      refine ⟨by rw [← h1], by rw [← h1], _, _, h2.symm, Or.inl ⟨hrep, rfl, by rw [← h1]⟩,
        Or.inr ⟨hnext, nw, ?_, rfl⟩⟩
      rw [← h1]
      exact hget
  · simp only [redraw_arm, if_neg hrep, if_neg hnext] at h
    simp only [Option.some.injEq, Prod.mk.injEq] at h
    obtain ⟨h1, h2⟩ := h
    exact ⟨by rw [← h1], by rw [← h1], _, _, by rw [← h2, List.append_nil],
      Or.inl ⟨hrep, rfl, by rw [← h1]⟩, Or.inl ⟨hnext, rfl⟩⟩

theorem redraw_arm_total (env : Env) (s : ApplicationInternal) (window_id i : Nat)
    (w : Window) :
    ∃ s2 eff, redraw_arm env s window_id i s.windows.length w = some (s2, eff) := by
  by_cases hrep : frameDuration < env.now - w.previous_frame_start <;>
    by_cases hnext : i + 1 < s.windows.length
  · have hsome : ∃ nw, (s.windows.set i
        { w with previous_frame_start := env.now, frame := w.frame + 1 }).get? (i + 1) =
          some nw := by
      rcases hget : (s.windows.set i
          { w with previous_frame_start := env.now, frame := w.frame + 1 }).get? (i + 1) with
        _ | nw
      · rw [List.get?_eq_none] at hget
        rw [List.length_set] at hget
        omega
      · exact ⟨nw, rfl⟩
    obtain ⟨nw, hnw⟩ := hsome
    refine ⟨{ s with windows := s.windows.set i { w with previous_frame_start := env.now, frame := w.frame + 1 } }, [Effect.ResetCanvas window_id, Effect.Draw window_id ((w.frame + 1) % 360)] ++ [Effect.RequestRedraw nw.id], ?_⟩
    simp only [redraw_arm, if_pos hrep, if_pos hnext, hnw]
  · refine ⟨{ s with windows := s.windows.set i { w with previous_frame_start := env.now, frame := w.frame + 1 } }, [Effect.ResetCanvas window_id, Effect.Draw window_id ((w.frame + 1) % 360)], ?_⟩
    simp only [redraw_arm, if_pos hrep, if_neg hnext]
  · have hsome : ∃ nw, s.windows.get? (i + 1) = some nw := by
      rcases hget : s.windows.get? (i + 1) with _ | nw
      · rw [List.get?_eq_none] at hget
        omega
      · exact ⟨nw, rfl⟩
    obtain ⟨nw, hnw⟩ := hsome
    refine ⟨{ s with windows := s.windows }, [] ++ [Effect.RequestRedraw nw.id], ?_⟩
    simp only [redraw_arm, if_neg hrep, if_pos hnext, hnw]
  · refine ⟨{ s with windows := s.windows }, [], ?_⟩
    simp only [redraw_arm, if_neg hrep, if_neg hnext]

/-! Well-formedness is preserved by every registry operation. -/

theorem wf_initState : WF initState := by
  constructor
  · intro i w h
    simp [initState] at h
  · intro id i h
    simp [initState] at h

theorem wf_set {s : ApplicationInternal} (hWF : WF s) {i : Nat} {w : Window} (w2 : Window)
    (hwin : s.windows.get? i = some w) (hid : w2.id = w.id) :
    WF { s with windows := s.windows.set i w2 } := by
  constructor
  · intro j u hju
    simp only at hju ⊢
    rw [List.get?_set] at hju
    by_cases he : i = j
    · rw [if_pos he] at hju
      rw [← he, hwin] at hju
      simp only [Option.map_some] at hju
      injection hju with hju
      rw [← hju, hid, ← he]
      exact hWF.1 i w hwin
    · rw [if_neg he] at hju
      exact hWF.1 j u hju
  · intro k j hk
    simp only at hk ⊢
    obtain ⟨u, hu, huid⟩ := hWF.2 k j hk
    by_cases he : i = j
    · refine ⟨w2, ?_, ?_⟩
      · rw [List.get?_set, if_pos he, hu]
        rfl
      · rw [← he, hwin] at hu
        injection hu with hu
        rw [hid, hu, huid]
    · refine ⟨u, ?_, huid⟩
      rw [List.get?_set, if_neg he]
      exact hu

theorem wf_open_window {s : ApplicationInternal} (hWF : WF s) (title : String) {env : Env}
    (hfresh : s.window_indices env.fresh_id = none) :
    WF (open_window s title env) := by
  constructor
  · intro j u hju
    simp only [open_window, newWindow] at hju ⊢
    obtain ⟨hjlen, -⟩ := List.get?_eq_some.mp hju
    rw [List.length_append, List.length_singleton] at hjlen
    rcases Nat.lt_or_ge j s.windows.length with hlt | hge
    · rw [List.get?_append hlt] at hju
      have hne : u.id ≠ env.fresh_id := by
        intro he
        rw [← he] at hfresh
        rw [hWF.1 j u hju] at hfresh
        exact Option.noConfusion hfresh
      rw [hmInsert_other _ hne]
      exact hWF.1 j u hju
    · have hj : j = s.windows.length := by omega
      rw [hj, List.get?_concat_length] at hju
      injection hju with hju
      rw [← hju]
      rw [hj]
      exact hmInsert_self _ _ _
  · intro k j hk
    simp only [open_window, newWindow] at hk ⊢
    by_cases he : k = env.fresh_id
    · rw [he, hmInsert_self] at hk
      injection hk with hk
      rw [← hk, he]
      exact ⟨_, List.get?_concat_length _ _, rfl⟩
    · rw [hmInsert_other _ he] at hk
      obtain ⟨u, hu, huid⟩ := hWF.2 k j hk
      obtain ⟨hjlen, -⟩ := List.get?_eq_some.mp hu
      refine ⟨u, ?_, huid⟩
      rw [List.get?_append hjlen]
      exact hu

theorem wf_open_first_window {s : ApplicationInternal} (hWF : WF s)
    (hempty : s.windows = []) (title : String) (env : Env) :
    WF (open_first_window s title env) := by
  constructor
  · intro j u hju
    simp only [open_first_window, newWindow, hempty, List.nil_append] at hju ⊢
    cases j with
    | zero =>
      injection hju with hju
      rw [← hju]
      exact hmInsert_self _ _ _
    | succ j2 => simp [List.get?] at hju
  · intro k j hk
    simp only [open_first_window, newWindow, hempty, List.nil_append] at hk ⊢
    by_cases he : k = env.fresh_id
    · rw [he, hmInsert_self] at hk
      injection hk with hk
      rw [← hk, he]
      exact ⟨_, rfl, rfl⟩
    · rw [hmInsert_other _ he] at hk
      obtain ⟨u, hu, -⟩ := hWF.2 k j hk
      rw [hempty] at hu
      simp [List.get?] at hu

/-- One dispatched event preserves registry well-formedness, provided the
environment's fresh id is not currently registered (the OS guarantee). -/
theorem wf_window_event {env : Env} {s s2 : ApplicationInternal} {window_id : Nat}
    {event : WinEvent} {effects : List Effect} (hWF : WF s)
    (hfresh : s.window_indices env.fresh_id = none)
    (hrun : window_event env s window_id event = some (s2, effects)) :
    WF s2 := by
  rcases hmap : s.window_indices window_id with _ | i
  · rw [window_event_unknown hmap] at hrun
    injection hrun with hrun
    rw [(Prod.mk.injEq _ _ _ _).mp hrun |>.1.symm]
    exact hWF
  · rcases hwin : s.windows.get? i with _ | w
    · exfalso
      have : window_event env s window_id event = none := by
        have hwin2 : s.windows[i]? = none := by
          rw [← List.get?_eq_getElem?]
          exact hwin
        simp [window_event, hmap, hwin2]
      rw [this] at hrun
      exact Option.noConfusion hrun
    · cases event with
      | Resized width height =>
        rw [window_event_resized hmap hwin] at hrun
        rcases hres : w.resize width height with _ | w2
        · rw [hres] at hrun
          exact Option.noConfusion hrun
        · rw [hres] at hrun
          injection hrun with hrun
          obtain ⟨h1, -⟩ := (Prod.mk.injEq _ _ _ _).mp hrun
          rw [← h1]
          have hid : w2.id = w.id := by
            simp only [Window.resize] at hres
            rcases hcs : create_surface_size width height with _ | sz
            · rw [hcs] at hres
              exact Option.noConfusion hres
            · rw [hcs] at hres
              simp only [Option.map_some'] at hres
              injection hres with hres
              rw [← hres]
          exact wf_set hWF w2 hwin hid
      | CloseRequested =>
        rw [window_event_close hmap hwin] at hrun
        injection hrun with hrun
        obtain ⟨h1, -⟩ := (Prod.mk.injEq _ _ _ _).mp hrun
        rw [← h1]
        exact close_arm_WF hWF hmap hwin
      | KeyReleased key =>
        by_cases hq : key = "q"
        · rw [hq, window_event_key_q hmap hwin, close_requested_known hmap hwin] at hrun
          injection hrun with hrun
          obtain ⟨h1, -⟩ := (Prod.mk.injEq _ _ _ _).mp hrun
          rw [← h1]
          exact close_arm_WF hWF hmap hwin
        · by_cases ha : key = "a"
          · rw [ha, window_event_key_a hmap hwin] at hrun
            injection hrun with hrun
            obtain ⟨h1, -⟩ := (Prod.mk.injEq _ _ _ _).mp hrun
            rw [← h1]
            exact wf_open_window hWF _ hfresh
          · rw [window_event_key_other hmap hwin env hq ha] at hrun
            injection hrun with hrun
            obtain ⟨h1, -⟩ := (Prod.mk.injEq _ _ _ _).mp hrun
            rw [← h1]
            exact hWF
      | KeyboardOther =>
        rw [window_event_keyboard_other hmap hwin] at hrun
        injection hrun with hrun
        obtain ⟨h1, -⟩ := (Prod.mk.injEq _ _ _ _).mp hrun
        rw [← h1]
        exact hWF
      | ModifiersChanged new_mods =>
        rw [window_event_modifiers hmap hwin] at hrun
        injection hrun with hrun
        obtain ⟨h1, -⟩ := (Prod.mk.injEq _ _ _ _).mp hrun
        rw [← h1]
        exact hWF
      | RedrawRequested =>
        rw [window_event_redraw hmap hwin] at hrun
        obtain ⟨-, -, base, casc, -, hbase, -⟩ := redraw_arm_inv hrun
        obtain ⟨hidx, -, -⟩ := redraw_arm_inv hrun
        rcases hbase with ⟨-, -, hws⟩ | ⟨-, -, hws⟩
        · constructor
          · intro j u hju
            rw [hws] at hju
            rw [hidx]
            exact hWF.1 j u hju
          · intro k j hk
            rw [hidx] at hk
            rw [hws]
            exact hWF.2 k j hk
        · have hset := wf_set hWF { w with previous_frame_start := env.now, frame := w.frame + 1 } hwin rfl
          constructor
          · intro j u hju
            rw [hws] at hju
            rw [hidx]
            exact hset.1 j u hju
          · intro k j hk
            rw [hidx] at hk
            rw [hws]
            exact hset.2 k j hk
      | OtherIgnored =>
        rw [window_event_other hmap hwin] at hrun
        injection hrun with hrun
        obtain ⟨h1, -⟩ := (Prod.mk.injEq _ _ _ _).mp hrun
        rw [← h1]
        exact hWF

/-- Every reachable application state has a well-formed registry. -/
theorem wf_of_reachable {s : ApplicationInternal} (h : Reachable s) : WF s := by
  induction h with
  | init => exact wf_initState
  | first s title env _ hempty ih => exact wf_open_first_window ih hempty title env
  | step s s2 env window_id event effects _ hfresh hrun ih =>
    exact wf_window_event ih hfresh hrun

/-! Remaining small helpers. -/

theorem get?_set_self {l : List Window} {i : Nat} {w : Window} (a : Window)
    (h : l.get? i = some w) : (l.set i a).get? i = some a := by
  rw [List.get?_set, if_pos rfl, h]
  rfl

theorem get?_set_other (l : List Window) (a : Window) {i j : Nat} (h : i ≠ j) :
    (l.set i a).get? j = l.get? j := by
  rw [List.get?_set, if_neg h]

theorem window_event_stale {s : ApplicationInternal} {window_id i : Nat}
    (hmap : s.window_indices window_id = some i) (hwin : s.windows.get? i = none)
    (env : Env) (event : WinEvent) :
    window_event env s window_id event = none := by
  have hwin2 : s.windows[i]? = none := by
    rw [← List.get?_eq_getElem?]
    exact hwin
  simp [window_event, hmap, hwin2]

theorem u32_to_nonzero_pos (value : Nat) : 0 < u32_to_nonzero value := by
  unfold u32_to_nonzero nonZeroNew
  split
  · simpa using Nat.pos_of_ne_zero (by assumption)
  · simp

theorem redrawRequests_append (a b : List Effect) :
    redrawRequests (a ++ b) = redrawRequests a ++ redrawRequests b :=
  List.filterMap_append a b _

/-- One intermediate step of the redraw cascade: the target window exists at
index `i` and a successor exists at `i + 1`; the handling succeeds, emits a
redraw request for exactly the successor and nothing else, and leaves the
map, the window count, and every other position unchanged. -/
theorem cascade_step {s : ApplicationInternal} {window_id i : Nat} {w nw : Window}
    (env : Env) (hmap : s.window_indices window_id = some i)
    (hwin : s.windows.get? i = some w) (hnw : s.windows.get? (i + 1) = some nw) :
    ∃ s2 e2, window_event env s window_id WinEvent.RedrawRequested = some (s2, e2) ∧
      redrawRequests e2 = [nw.id] ∧
      s2.window_indices = s.window_indices ∧
      s2.windows.length = s.windows.length ∧
      (∀ j, j ≠ i → s2.windows.get? j = s.windows.get? j) := by
  obtain ⟨s2, e2, h⟩ := redraw_arm_total env s window_id i w
  obtain ⟨hidx, -, base, casc, heff, hbase, hcasc⟩ := redraw_arm_inv h
  obtain ⟨hnext, -⟩ := List.get?_eq_some.mp hnw
  have hpres : ∀ j, j ≠ i → s2.windows.get? j = s.windows.get? j := by
    intro j hj
    rcases hbase with ⟨-, -, hws⟩ | ⟨-, -, hws⟩
    · rw [hws]
    · rw [hws]
      exact get?_set_other _ _ (fun he => hj he.symm)
  have hlen : s2.windows.length = s.windows.length := by
    rcases hbase with ⟨-, -, hws⟩ | ⟨-, -, hws⟩
    · rw [hws]
    · rw [hws, List.length_set]
  refine ⟨s2, e2, ?_, ?_, hidx, hlen, hpres⟩
  · rw [window_event_redraw hmap hwin]
    exact h
  · rcases hcasc with ⟨hn, -⟩ | ⟨-, nw2, hnw2, hc⟩
    · exact absurd hnext hn
    · have hnw2b : nw2 = nw := by
        rw [hpres (i + 1) (by omega), hnw] at hnw2
        injection hnw2 with h2
        exact h2.symm
      rw [heff, redrawRequests_append, hc, hnw2b]
      rcases hbase with ⟨-, hb, -⟩ | ⟨-, hb, -⟩ <;> rw [hb] <;> rfl

/-- The last step of the redraw cascade: the target window exists at index
`i` and no successor exists; the handling succeeds and requests no further
redraw. -/
theorem cascade_last {s : ApplicationInternal} {window_id i : Nat} {w : Window}
    (env : Env) (hmap : s.window_indices window_id = some i)
    (hwin : s.windows.get? i = some w) (hlast : ¬i + 1 < s.windows.length) :
    ∃ s2 e2, window_event env s window_id WinEvent.RedrawRequested = some (s2, e2) ∧
      redrawRequests e2 = [] := by
  obtain ⟨s2, e2, h⟩ := redraw_arm_total env s window_id i w
  obtain ⟨-, -, base, casc, heff, hbase, hcasc⟩ := redraw_arm_inv h
  refine ⟨s2, e2, ?_, ?_⟩
  · rw [window_event_redraw hmap hwin]
    exact h
  · rcases hcasc with ⟨-, hc⟩ | ⟨hn, -⟩
    · rw [heff, redrawRequests_append, hc]
      rcases hbase with ⟨-, hb, -⟩ | ⟨-, hb, -⟩ <;> rw [hb] <;> rfl
    · exact absurd hn hlast

theorem reachable_stateOne : Reachable stateOne :=
  Reachable.first initState ("Rust Skia Template") envA Reachable.init rfl

theorem reachable_stateTwo : Reachable stateTwo :=
  Reachable.step stateOne stateTwo envB 7 (WinEvent.KeyReleased ("a")) []
    reachable_stateOne rfl rfl

theorem reachable_stateThree : Reachable stateThree :=
  Reachable.step stateTwo stateThree envC 7 (WinEvent.KeyReleased ("a")) []
    reachable_stateTwo rfl rfl

/-! The claims. -/

/-- C1: in every pairwise reduction step of the capability negotiator over
two candidate configs, if the first supports transparency and the second
does not, the first wins regardless of the two sample counts; and if the
two have equal transparency support, the candidate with the strictly lower
sample count wins. -/
theorem C1_capability_tiebreak (c1 c2 : Config) :
    (c1.supports_transparency.getD false = true →
      c2.supports_transparency.getD false = false →
      min_transparency c1 c2 = c1) ∧
    (c1.supports_transparency.getD false = c2.supports_transparency.getD false →
      (c1.num_samples < c2.num_samples → min_transparency c1 c2 = c1) ∧
      (c2.num_samples < c1.num_samples → min_transparency c1 c2 = c2)) := by
  constructor
  · intro h1 h2
    simp [min_transparency, h1, h2]
  · intro heq
    constructor
    · intro hlt
      simp [min_transparency, hlt]
    · intro hlt
      have hnlt : ¬c1.num_samples < c2.num_samples := by omega
      simp [min_transparency, heq, hnlt]

theorem C1_capability_tiebreak_witness :
    min_transparency { supports_transparency := some true, num_samples := 8 }
        { supports_transparency := some false, num_samples := 2 } =
      { supports_transparency := some true, num_samples := 8 } ∧
    min_transparency { supports_transparency := some true, num_samples := 4 }
        { supports_transparency := some true, num_samples := 2 } =
      { supports_transparency := some true, num_samples := 2 } :=
  ⟨(C1_capability_tiebreak { supports_transparency := some true, num_samples := 8 } { supports_transparency := some false, num_samples := 2 }).1 rfl rfl,
    ((C1_capability_tiebreak { supports_transparency := some true, num_samples := 4 } { supports_transparency := some true, num_samples := 2 }).2 rfl).2 (by decide)⟩

/-- C8: an event whose target window id is not present in the registry map
is silently dropped: the handler returns without modifying any state,
emitting no effect and signalling no error. -/
theorem C8_unknown_id_dropped (env : Env) (s : ApplicationInternal) (window_id : Nat)
    (event : WinEvent) (h : s.window_indices window_id = none) :
    window_event env s window_id event = some (s, []) :=
  window_event_unknown h env event

theorem C8_unknown_id_dropped_witness :
    window_event envA stateOne 12 WinEvent.CloseRequested = some (stateOne, []) :=
  C8_unknown_id_dropped envA stateOne 12 WinEvent.CloseRequested rfl

/-- C9: a modifier-change event for a registered window sets the shared
keyboard-modifier state to the new modifiers and leaves everything else
unchanged: the window vector (hence every window's frame counter,
previous_frame_start and surface sizes) and the id-to-index map are
identical before and after, and no effect is emitted. -/
theorem C9_modifiers_only_effect (env : Env) (s : ApplicationInternal)
    (window_id i new_mods : Nat) (w : Window)
    (hmap : s.window_indices window_id = some i)
    (hwin : s.windows.get? i = some w) :
    ∃ s2, window_event env s window_id (WinEvent.ModifiersChanged new_mods) =
        some (s2, []) ∧
      s2.keyboard_modifiers = new_mods ∧
      s2.windows = s.windows ∧
      s2.window_indices = s.window_indices :=
  ⟨_, window_event_modifiers hmap hwin env new_mods, rfl, rfl, rfl⟩

theorem C9_modifiers_only_effect_witness :
    ∃ s2, window_event envB stateOne 7 (WinEvent.ModifiersChanged 5) = some (s2, []) ∧
      s2.keyboard_modifiers = 5 ∧
      s2.windows = stateOne.windows ∧
      s2.window_indices = stateOne.window_indices :=
  C9_modifiers_only_effect envB stateOne 7 0 5 (newWindow envA ("Rust Skia Template")) rfl rfl

/-- C10: a resize requesting width 0 or height 0 completes without the zero
dimension panicking: each zero dimension is clamped to 1 (NonZeroU32::MIN)
for the GL swap-surface resize, while the Skia canvas surface is rebuilt at
the literal requested size, so the two surfaces are given different sizes.
(The u32-to-i32 conversions of the Skia path bound both dimensions by
2^31.) -/
theorem C10_resize_zero_dimension (w : Window) (width height : Nat)
    (hw : width < 2 ^ 31) (hh : height < 2 ^ 31) (h0 : width = 0 ∨ height = 0) :
    ∃ w2, w.resize width height = some w2 ∧
      w2.gl_surface_size = (u32_to_nonzero width, u32_to_nonzero height) ∧
      w2.skia_surface_size = (width, height) ∧
      (width = 0 → w2.gl_surface_size.1 = 1) ∧
      (height = 0 → w2.gl_surface_size.2 = 1) ∧
      0 < w2.gl_surface_size.1 ∧ 0 < w2.gl_surface_size.2 ∧
      w2.gl_surface_size ≠ w2.skia_surface_size := by
  have hcs : create_surface_size width height = some (width, height) := by
    have hw2 : width < 2147483648 := hw
    have hh2 : height < 2147483648 := hh
    simp [create_surface_size, i32TryFrom, hw2, hh2]
  refine ⟨{ w with gl_surface_size := (u32_to_nonzero width, u32_to_nonzero height), skia_surface_size := (width, height) }, ?_, rfl, rfl, ?_, ?_, u32_to_nonzero_pos width, u32_to_nonzero_pos height, ?_⟩
  · simp [Window.resize, hcs]
  · intro h
    rw [h]
    rfl
  · intro h
    rw [h]
    rfl
  · rcases h0 with h | h
    · subst h
      intro he
      have h1 := congrArg Prod.fst he
      simp [u32_to_nonzero, nonZeroNew] at h1
    · subst h
      intro he
      have h1 := congrArg Prod.snd he
      simp [u32_to_nonzero, nonZeroNew] at h1

theorem C10_resize_zero_dimension_witness :
    ∃ w2, (newWindow envA ("Rust Skia Template")).resize 0 500 = some w2 ∧
      w2.gl_surface_size = (u32_to_nonzero 0, u32_to_nonzero 500) ∧
      w2.skia_surface_size = (0, 500) ∧
      (0 = 0 → w2.gl_surface_size.1 = 1) ∧
      (500 = 0 → w2.gl_surface_size.2 = 1) ∧
      0 < w2.gl_surface_size.1 ∧ 0 < w2.gl_surface_size.2 ∧
      w2.gl_surface_size ≠ w2.skia_surface_size :=
  C10_resize_zero_dimension (newWindow envA ("Rust Skia Template")) 0 500
    (by decide) (by decide) (Or.inl rfl)

/-- C2: after any sequence of window opens (first-window open, shortcut
open) and closes starting from the empty registry, the id-to-index map
sends each registered window's id to exactly that window's position,
is injective, and contains no out-of-range (stale) index. -/
theorem C2_registry_invariant (s : ApplicationInternal) (h : Reachable s) :
    WF s ∧
    (∀ id1 id2 j, s.window_indices id1 = some j → s.window_indices id2 = some j →
      id1 = id2) ∧
    (∀ id j, s.window_indices id = some j → j < s.windows.length) := by
  have hWF := wf_of_reachable h
  refine ⟨hWF, ?_, ?_⟩
  · intro id1 id2 j h1 h2
    obtain ⟨u, hu, huid⟩ := hWF.2 id1 j h1
    obtain ⟨v, hv, hvid⟩ := hWF.2 id2 j h2
    rw [hu] at hv
    injection hv with hv
    rw [← huid, ← hvid, hv]
  · intro id j hj
    obtain ⟨u, hu, -⟩ := hWF.2 id j hj
    obtain ⟨hlt, -⟩ := List.get?_eq_some.mp hu
    exact hlt

theorem C2_registry_invariant_witness :
    WF stateThree ∧
    (∀ id1 id2 j, stateThree.window_indices id1 = some j →
      stateThree.window_indices id2 = some j → id1 = id2) ∧
    (∀ id j, stateThree.window_indices id = some j → j < stateThree.windows.length) :=
  C2_registry_invariant stateThree reachable_stateThree

/-- C3: closing the window registered at index i shifts every window that
was at an index greater than i down by exactly one, remapping its id to the
new index, while every window at an index less than i keeps both its
position and its mapping. -/
theorem C3_close_shifts_down (env : Env) (s s2 : ApplicationInternal)
    (window_id i : Nat) (eff : List Effect) (hWF : WF s)
    (hmap : s.window_indices window_id = some i)
    (hrun : window_event env s window_id WinEvent.CloseRequested = some (s2, eff)) :
    s2.windows.length + 1 = s.windows.length ∧
    (∀ j, j < i → s2.windows.get? j = s.windows.get? j) ∧
    (∀ j u, j < i → s.windows.get? j = some u →
      s2.window_indices u.id = some j ∧ s.window_indices u.id = some j) ∧
    (∀ j u, i < j → s.windows.get? j = some u →
      s2.windows.get? (j - 1) = some u ∧ s2.window_indices u.id = some (j - 1)) := by
  obtain ⟨w, hwin, -⟩ := wf_window_at hWF hmap
  obtain ⟨hleni, -⟩ := List.get?_eq_some.mp hwin
  rw [window_event_close hmap hwin] at hrun
  injection hrun with hrun
  have hs2 : s2 = (close_arm s window_id i).1 :=
    ((Prod.mk.injEq _ _ _ _).mp hrun).1.symm
  subst hs2
  refine ⟨?_, ?_, ?_, ?_⟩
  · rw [close_arm_windows, List.length_eraseIdx, if_pos hleni]
    omega
  · intro j hj
    exact close_arm_get?_lt s window_id hj
  · intro j u hj hu
    refine ⟨?_, hWF.1 j u hu⟩
    apply close_arm_pos hWF hmap hwin
    rw [close_arm_get?_lt s window_id hj]
    exact hu
  · intro j u hj hu
    have hget : (close_arm s window_id i).1.windows.get? (j - 1) = some u := by
      rw [close_arm_get?_ge s window_id (by omega)]
      have he : j - 1 + 1 = j := by omega
      rw [he]
      exact hu
    exact ⟨hget, close_arm_pos hWF hmap hwin (j - 1) u hget⟩

theorem C3_close_shifts_down_witness :
    stateThreeClosed.windows.length + 1 = stateThree.windows.length ∧
    (∀ j, j < 1 → stateThreeClosed.windows.get? j = stateThree.windows.get? j) ∧
    (∀ j u, j < 1 → stateThree.windows.get? j = some u →
      stateThreeClosed.window_indices u.id = some j ∧
      stateThree.window_indices u.id = some j) ∧
    (∀ j u, 1 < j → stateThree.windows.get? j = some u →
      stateThreeClosed.windows.get? (j - 1) = some u ∧
      stateThreeClosed.window_indices u.id = some (j - 1)) :=
  C3_close_shifts_down envC stateThree stateThreeClosed 8 1 []
    (wf_of_reachable reachable_stateThree) rfl rfl

/-- C6: releasing the q key on a registered window is dispatched through
exactly the same path as an external close request and produces the same
state and effects, whatever instants the two dispatches read; if that
window was the last registered one, the loop-exit signal is emitted and
the registry becomes empty. -/
theorem C6_key_q_is_close (env1 env2 : Env) (s : ApplicationInternal) (window_id : Nat) :
    window_event env1 s window_id (WinEvent.KeyReleased ("q")) =
      window_event env2 s window_id WinEvent.CloseRequested ∧
    (∀ w, s.windows = [w] → s.window_indices window_id = some 0 →
      ∃ s2, window_event env1 s window_id (WinEvent.KeyReleased ("q")) =
          some (s2, [Effect.ExitLoop]) ∧ s2.windows = []) := by
  constructor
  · rcases hmap : s.window_indices window_id with _ | i
    · rw [window_event_unknown hmap, window_event_unknown hmap]
    · rcases hwin : s.windows.get? i with _ | w
      · rw [window_event_stale hmap hwin, window_event_stale hmap hwin]
      · rw [window_event_key_q hmap hwin, close_requested_known hmap hwin,
          window_event_close hmap hwin]
  · intro w hw hmap
    have hwin : s.windows.get? 0 = some w := by
      rw [hw]
      rfl
    have hclose : close_arm s window_id 0 =
        ({ s with window_indices := hmRemove s.window_indices window_id, windows := [] },
          [Effect.ExitLoop]) := by
      simp [close_arm, hw]
    refine ⟨{ s with window_indices := hmRemove s.window_indices window_id, windows := [] }, ?_, rfl⟩
    rw [window_event_key_q hmap hwin, close_requested_known hmap hwin, hclose]

theorem C6_key_q_is_close_witness :
    (window_event envB stateOne 7 (WinEvent.KeyReleased ("q")) =
      window_event envC stateOne 7 WinEvent.CloseRequested) ∧
    ∃ s2, window_event envB stateOne 7 (WinEvent.KeyReleased ("q")) =
        some (s2, [Effect.ExitLoop]) ∧ s2.windows = [] := by
  obtain ⟨h1, h2⟩ := C6_key_q_is_close envB envC stateOne 7
  exact ⟨h1, h2 (newWindow envA ("Rust Skia Template")) rfl rfl⟩

/-- C7: releasing the a key (no auto-repeat) on a registered window appends
exactly one new window, titled with the number of windows registered at the
moment the event is handled rather than a persistent counter. -/
theorem C7_key_a_opens_numbered_window (env : Env) (s : ApplicationInternal)
    (window_id i : Nat) (w : Window) (hmap : s.window_indices window_id = some i)
    (hwin : s.windows.get? i = some w) :
    ∃ s2, window_event env s window_id (WinEvent.KeyReleased ("a")) = some (s2, []) ∧
      s2.windows = s.windows ++ [newWindow env ("Window " ++ toString s.windows.length)] ∧
      s2.windows.map Window.title =
        s.windows.map Window.title ++ ["Window " ++ toString s.windows.length] := by
  refine ⟨_, window_event_key_a hmap hwin env, rfl, ?_⟩
  simp [open_window, newWindow]

theorem C7_key_a_opens_numbered_window_witness :
    ∃ s2, window_event envC stateTwo 7 (WinEvent.KeyReleased ("a")) = some (s2, []) ∧
      s2.windows = stateTwo.windows ++ [newWindow envC ("Window " ++ toString stateTwo.windows.length)] ∧
      s2.windows.map Window.title = ["Rust Skia Template", "Window 1", "Window 2"] := by
  obtain ⟨s2, h1, h2, h3⟩ := C7_key_a_opens_numbered_window envC stateTwo 7 0
    (newWindow envA ("Rust Skia Template")) rfl rfl
  refine ⟨s2, h1, h2, ?_⟩
  rw [h3]
  decide

/-- C4: two redraw-requested handlings for the same window whose instants
are under the target frame interval apart perform at most one repaint
(the reset-canvas step runs in at most one of them, and the window's frame
counter rises by at most one across both), while each of the two handlings
still requests the next window's redraw when a next window exists. -/
theorem C4_frame_rate_gate (env1 env2 : Env) (s s1 s2 : ApplicationInternal)
    (window_id i : Nat) (eff1 eff2 : List Effect)
    (hmap : s.window_indices window_id = some i)
    (h1 : window_event env1 s window_id WinEvent.RedrawRequested = some (s1, eff1))
    (h2 : window_event env2 s1 window_id WinEvent.RedrawRequested = some (s2, eff2))
    (_hmono : env1.now ≤ env2.now)
    (hfast : env2.now - env1.now < frameDuration) :
    ¬(Effect.ResetCanvas window_id ∈ eff1 ∧ Effect.ResetCanvas window_id ∈ eff2) ∧
    (∀ w w2, s.windows.get? i = some w → s2.windows.get? i = some w2 →
      w2.frame ≤ w.frame + 1) ∧
    (∀ nw, s.windows.get? (i + 1) = some nw →
      Effect.RequestRedraw nw.id ∈ eff1 ∧ Effect.RequestRedraw nw.id ∈ eff2) := by
  rcases hwin : s.windows.get? i with _ | w
  · rw [window_event_stale hmap hwin] at h1
    exact Option.noConfusion h1
  rw [window_event_redraw hmap hwin] at h1
  obtain ⟨hidx1, -, base1, casc1, heff1, hbase1, hcasc1⟩ := redraw_arm_inv h1
  have hmap1 : s1.window_indices window_id = some i := by
    rw [hidx1]
    exact hmap
  rcases hbase1 with ⟨hrep1, hb1, hws1⟩ | ⟨hrep1, hb1, hws1⟩
  · -- no repaint in the first handling
    have hwin1 : s1.windows.get? i = some w := by
      rw [hws1]
      exact hwin
    rw [window_event_redraw hmap1 hwin1] at h2
    obtain ⟨hidx2, -, base2, casc2, heff2, hbase2, hcasc2⟩ := redraw_arm_inv h2
    refine ⟨?_, ?_, ?_⟩
    · intro hboth
      have hnotin1 : Effect.ResetCanvas window_id ∉ eff1 := by
        rw [heff1, hb1]
        rcases hcasc1 with ⟨-, hc⟩ | ⟨-, nwx, -, hc⟩ <;> rw [hc] <;> simp
      exact hnotin1 hboth.1
    · intro wa w2a hwa hw2a
      injection hwa with hwa
      rcases hbase2 with ⟨-, -, hws2⟩ | ⟨-, -, hws2⟩
      · rw [hws2, hws1, hwin] at hw2a
        injection hw2a with hw2a
        rw [← hwa, ← hw2a]
        omega
      · rw [hws2, get?_set_self _ hwin1] at hw2a
        injection hw2a with hw2a
        rw [← hw2a, ← hwa]
    · intro nw hnw
      obtain ⟨hnext, -⟩ := List.get?_eq_some.mp hnw
      constructor
      · rcases hcasc1 with ⟨hn, -⟩ | ⟨-, nw1, hnw1, hc1⟩
        · exact absurd hnext hn
        · have : nw1 = nw := by
            rw [hws1, hnw] at hnw1
            injection hnw1 with he
            exact he.symm
          rw [heff1, hc1, this]
          simp
      · have hnext2 : i + 1 < s1.windows.length := by
          rw [hws1]
          exact hnext
        rcases hcasc2 with ⟨hn, -⟩ | ⟨-, nw2x, hnw2, hc2⟩
        · exact absurd hnext2 hn
        · have : nw2x = nw := by
            rcases hbase2 with ⟨-, -, hws2⟩ | ⟨-, -, hws2⟩
            · rw [hws2, hws1, hnw] at hnw2
              injection hnw2 with he
              exact he.symm
            · rw [hws2, get?_set_other _ _ (by omega), hws1, hnw] at hnw2
              injection hnw2 with he
              exact he.symm
          rw [heff2, hc2, this]
          simp
  · -- repaint in the first handling: the gate blocks the second
    have hwin1 : s1.windows.get? i =
        some { w with previous_frame_start := env1.now, frame := w.frame + 1 } := by
      rw [hws1]
      exact get?_set_self _ hwin
    rw [window_event_redraw hmap1 hwin1] at h2
    obtain ⟨hidx2, -, base2, casc2, heff2, hbase2, hcasc2⟩ := redraw_arm_inv h2
    have hnorep2 : ¬frameDuration < env2.now - env1.now := by omega
    rcases hbase2 with ⟨-, hb2, hws2⟩ | ⟨hrep2, -, -⟩
    swap
    · exact absurd hrep2 hnorep2
    refine ⟨?_, ?_, ?_⟩
    · intro hboth
      have hnotin2 : Effect.ResetCanvas window_id ∉ eff2 := by
        rw [heff2, hb2]
        rcases hcasc2 with ⟨-, hc⟩ | ⟨-, nwx, -, hc⟩ <;> rw [hc] <;> simp
      exact hnotin2 hboth.2
    · intro wa w2a hwa hw2a
      injection hwa with hwa
      rw [hws2, hwin1] at hw2a
      injection hw2a with hw2a
      rw [← hw2a, ← hwa]
    · intro nw hnw
      obtain ⟨hnext, -⟩ := List.get?_eq_some.mp hnw
      constructor
      · rcases hcasc1 with ⟨hn, -⟩ | ⟨-, nw1, hnw1, hc1⟩
        · exact absurd hnext hn
        · have : nw1 = nw := by
            rw [hws1, get?_set_other _ _ (by omega), hnw] at hnw1
            injection hnw1 with he
            exact he.symm
          rw [heff1, hc1, this]
          simp
      · have hnext2 : i + 1 < s1.windows.length := by
          rw [hws1, List.length_set]
          exact hnext
        rcases hcasc2 with ⟨hn, -⟩ | ⟨-, nw2x, hnw2, hc2⟩
        · exact absurd hnext2 hn
        · have : nw2x = nw := by
            rw [hws2, hws1, get?_set_other _ _ (by omega), hnw] at hnw2
            injection hnw2 with he
            exact he.symm
          rw [heff2, hc2, this]
          simp

theorem C4_frame_rate_gate_witness :
    ¬(Effect.ResetCanvas 7 ∈ redrawOnce.2 ∧ Effect.ResetCanvas 7 ∈ redrawTwice.2) ∧
    (∀ w w2, stateTwo.windows.get? 0 = some w →
      redrawTwice.1.windows.get? 0 = some w2 → w2.frame ≤ w.frame + 1) ∧
    (∀ nw, stateTwo.windows.get? (0 + 1) = some nw →
      Effect.RequestRedraw nw.id ∈ redrawOnce.2 ∧
      Effect.RequestRedraw nw.id ∈ redrawTwice.2) :=
  C4_frame_rate_gate envD envE stateTwo redrawOnce.1 redrawTwice.1 7 0
    redrawOnce.2 redrawTwice.2 rfl rfl rfl (by decide) (by decide)

/-- C5: with three registered windows and one poll tick, the tick requests
window 0's redraw; handling window 0's redraw requests exactly window 1's;
handling window 1's requests exactly window 2's; and handling window 2's
requests nothing further — so in one pass the three distinct windows are
each asked to redraw exactly once, in registry order, each only after its
predecessor's handling returned. -/
theorem C5_redraw_cascade (s : ApplicationInternal) (w0 w1 w2 : Window)
    (env1 env2 env3 : Env) (hWF : WF s) (hw : s.windows = [w0, w1, w2]) :
    new_events s StartCause.Poll = [Effect.RequestRedraw w0.id] ∧
    [w0.id, w1.id, w2.id].Nodup ∧
    ∃ s1 e1 s2 e2 s3 e3,
      window_event env1 s w0.id WinEvent.RedrawRequested = some (s1, e1) ∧
      redrawRequests e1 = [w1.id] ∧
      window_event env2 s1 w1.id WinEvent.RedrawRequested = some (s2, e2) ∧
      redrawRequests e2 = [w2.id] ∧
      window_event env3 s2 w2.id WinEvent.RedrawRequested = some (s3, e3) ∧
      redrawRequests e3 = [] := by
  have hg0 : s.windows.get? 0 = some w0 := by
    rw [hw]
    rfl
  have hg1 : s.windows.get? 1 = some w1 := by
    rw [hw]
    rfl
  have hg2 : s.windows.get? 2 = some w2 := by
    rw [hw]
    rfl
  have hlen : s.windows.length = 3 := by
    rw [hw]
    rfl
  have hm0 := hWF.1 0 w0 hg0
  have hm1 := hWF.1 1 w1 hg1
  have hm2 := hWF.1 2 w2 hg2
  refine ⟨?_, ?_, ?_⟩
  · simp [new_events, hw]
  · have h01 : w0.id ≠ w1.id := fun he => by
      have := wf_ids_inj hWF hg0 hg1 he
      omega
    have h02 : w0.id ≠ w2.id := fun he => by
      have := wf_ids_inj hWF hg0 hg2 he
      omega
    have h12 : w1.id ≠ w2.id := fun he => by
      have := wf_ids_inj hWF hg1 hg2 he
      omega
    simp [h01, h02, h12]
  · obtain ⟨s1, e1, hrun1, hreq1, hidx1, hlen1, hpres1⟩ := cascade_step env1 hm0 hg0 hg1
    have hm1b : s1.window_indices w1.id = some 1 := by
      rw [hidx1]
      exact hm1
    have hg1b : s1.windows.get? 1 = some w1 := by
      rw [hpres1 1 (by omega)]
      exact hg1
    have hg2b : s1.windows.get? 2 = some w2 := by
      rw [hpres1 2 (by omega)]
      exact hg2
    obtain ⟨s2, e2, hrun2, hreq2, hidx2, hlen2, hpres2⟩ := cascade_step env2 hm1b hg1b hg2b
    have hm2c : s2.window_indices w2.id = some 2 := by
      rw [hidx2, hidx1]
      exact hm2
    have hg2c : s2.windows.get? 2 = some w2 := by
      rw [hpres2 2 (by omega)]
      exact hg2b
    have hlast : ¬2 + 1 < s2.windows.length := by
      rw [hlen2, hlen1, hlen]
      omega
    obtain ⟨s3, e3, hrun3, hreq3⟩ := cascade_last env3 hm2c hg2c hlast
    exact ⟨s1, e1, s2, e2, s3, e3, hrun1, hreq1, hrun2, hreq2, hrun3, hreq3⟩

theorem C5_redraw_cascade_witness :
    new_events stateThree StartCause.Poll = [Effect.RequestRedraw winA.id] ∧
    [winA.id, winB.id, winC.id].Nodup ∧
    ∃ s1 e1 s2 e2 s3 e3,
      window_event envA stateThree winA.id WinEvent.RedrawRequested = some (s1, e1) ∧
      redrawRequests e1 = [winB.id] ∧
      window_event envB s1 winB.id WinEvent.RedrawRequested = some (s2, e2) ∧
      redrawRequests e2 = [winC.id] ∧
      window_event envC s2 winC.id WinEvent.RedrawRequested = some (s3, e3) ∧
      redrawRequests e3 = [] :=
  C5_redraw_cascade stateThree winA winB winC envA envB envC
    (wf_of_reachable reachable_stateThree) rfl

end GuiTemplate
